import Mathlib

/-!
Verification development for the dealsync build-pipeline scripts.

The repository holds two versions of the same automation script:
  * src/scripts/build-pipeline.js  — parses the model response by splitting the
    whole text on the token "===" and treating each fragment in isolation
    (functions modelled here with the suffix `_pipeline`);
  * src/unnamed/part_000           — parses with the multiline regex
    /^===\s*(.+?)\s*===/gm, adds callGeminiWithRetry, and returns early when no
    edit blocks are parsed (functions modelled here with the suffix `_regex`,
    and callGeminiWithRetry / mainRun_part000).

Text is modelled as `List Char`.  JavaScript strings, `String.prototype.split`,
`trim`, `includes`, and the specific regex above are translated function by
function.  Numbers that JavaScript holds as floats (the backoff delay, which is
repeatedly multiplied by 1.5) are modelled as rationals; within the default
retry budget every such product is exactly representable, so the model is
exact.  External effects (the generation service, the filesystem, git) are
modelled as explicit inputs and recorded outputs of a run.
-/

namespace DealSync

/-- One file edit extracted from a generation response: a filename and the
block content (build-pipeline.js / part_000, object {filename, content}). -/
structure FileEdit where
  filename : List Char
  content : List Char
deriving DecidableEq

/-- Whitespace class used by JavaScript trim and by the regex class \s.
The sources only ever meet the ASCII members, which are modelled here. -/
def isWsChar (c : Char) : Bool :=
  c == ' ' || c == '\t' || c == '\n' || c == '\r' || c == '\x0b' || c == '\x0c'

/-- JavaScript String.prototype.trim on char lists: strip whitespace from both
ends. -/
def trim (l : List Char) : List Char :=
  ((l.dropWhile isWsChar).reverse.dropWhile isWsChar).reverse

/-- JavaScript String.prototype.includes for a needle list: some contiguous
occurrence of the needle inside the haystack. -/
def includesSub (needle : List Char) : List Char → Bool
  | [] => needle.isEmpty
  | c :: rest => needle.isPrefixOf (c :: rest) || includesSub needle rest

/-- The three-equals-signs delimiter token that both parsers look for. -/
def eqsTok : List Char := ['=', '=', '=']

/-! ### Parser of src/scripts/build-pipeline.js (split on "===") -/

/-- JavaScript text.split(given three equals signs): leftmost, non-overlapping
occurrences cut the text; n separators yield n+1 fragments. -/
def splitEqs : List Char → List Char → List (List Char)
  | [], acc => [acc.reverse]
  | '=' :: '=' :: '=' :: rest, acc => acc.reverse :: splitEqs rest []
  | c :: rest, acc => splitEqs rest (c :: acc)

/-- JavaScript text.split(a newline): cut at every newline character. -/
def splitNl : List Char → List Char → List (List Char)
  | [], acc => [acc.reverse]
  | '\n' :: rest, acc => acc.reverse :: splitNl rest []
  | c :: rest, acc => splitNl rest (c :: acc)

/-- JavaScript lines.join(a newline). -/
def joinNl : List (List Char) → List Char
  | [] => []
  | [l] => l
  | l :: ls => l ++ '\n' :: joinNl ls

/-- The per-fragment body of parseAIResponse in build-pipeline.js
(lines 100-117): trim the fragment, require at least two lines, require a
period in the trimmed first line, and require non-empty trimmed remaining
content; on success the first line is the filename and the rest the content. -/
def pipelinePart (part : List Char) : Option FileEdit :=
  let trimmed := trim part
  if trimmed = [] then none
  else
    match splitNl trimmed [] with
    | [] => none
    | firstRaw :: restLines =>
      if restLines = [] then none
      else
        let firstLine := trim firstRaw
        if firstLine.contains '.' then
          let content := trim (joinNl restLines)
          if firstLine ≠ [] ∧ content ≠ [] then some ⟨firstLine, content⟩ else none
        else none

/-- parseAIResponse of src/scripts/build-pipeline.js (lines 99-119): split the
whole text on "===" and keep the fragments that look like a filename line
followed by content. -/
def parseAIResponse_pipeline (text : List Char) : List FileEdit :=
  (splitEqs text []).filterMap pipelinePart

/-! ### Parser of src/unnamed/part_000 (regex /^===\s*(.+?)\s*===/gm)

The regex engine is modelled by its backtracking order on this one pattern:
the anchor ^ admits only line starts; after the literal "===" the greedy \s*
prefers the longest whitespace run, the lazy (.+?) prefers the shortest
non-empty run of non-line-terminator characters, and the second greedy \s*
prefers the longest whitespace run before the closing "===".  Earlier
subexpressions take priority, and exec returns the leftmost position at which
the whole pattern matches. -/

/-- The regex metacharacter dot (no s flag): any character except a line
terminator. -/
def isDotMatch (c : Char) : Bool :=
  !(c == '\n' || c == '\r')

/-- Try the greedy tail \s*=== of the pattern: for k = given bound down to 0,
accept the first k with "===" right after k whitespace characters, returning
how many characters the tail consumed. -/
def tryEqsFrom (v : List Char) : Nat → Option Nat
  | 0 => if eqsTok.isPrefixOf v then some 3 else none
  | k + 1 =>
    if eqsTok.isPrefixOf (v.drop (k + 1)) then some (k + 4) else tryEqsFrom v k

/-- Match \s*=== greedily at the head of v (longest whitespace run first). -/
def wsEqsMatch (v : List Char) : Option Nat :=
  tryEqsFrom v (v.takeWhile isWsChar).length

/-- Match the lazy (.+?)\s*=== at the head of the list: grow the captured
token one non-line-terminator character at a time and stop at the first length
whose remainder matches \s*===.  Returns the captured token and the number of
characters consumed. -/
def lazyScan : List Char → List Char → Option (List Char × Nat)
  | [], _ => none
  | c :: rest, acc =>
    if isDotMatch c then
      match wsEqsMatch rest with
      | some n => some ((c :: acc).reverse, acc.length + 1 + n)
      | none => lazyScan rest (c :: acc)
    else none

/-- Try the leading greedy \s* of the body: for k = given bound down to 0, use
the first k whose remainder matches (.+?)\s*===. -/
def tryK1 (s : List Char) : Nat → Option (List Char × Nat)
  | 0 => lazyScan s []
  | k + 1 =>
    match lazyScan (s.drop (k + 1)) [] with
    | some (tok, n) => some (tok, k + 1 + n)
    | none => tryK1 s k

/-- Match \s*(.+?)\s*=== at the head of s: the leading greedy \s* prefers the
longest whitespace run. -/
def matchBody (s : List Char) : Option (List Char × Nat) :=
  tryK1 s (s.takeWhile isWsChar).length

/-- The multiline anchor ^: position 0 or a position right after a line
terminator. -/
def lineStart (text : List Char) (p : Nat) : Bool :=
  p == 0 ||
    (match text[p - 1]? with
     | some c => c == '\n' || c == '\r'
     | none => false)

/-- Match the whole pattern ^===\s*(.+?)\s*=== at position p of text.
On success, return the captured token and the end position of the match. -/
def matchAt (text : List Char) (p : Nat) : Option (List Char × Nat) :=
  if lineStart text p && eqsTok.isPrefixOf (text.drop p) then
    match matchBody (text.drop (p + 3)) with
    | some (tok, n) => some (tok, p + 3 + n)
    | none => none
  else none

/-- regex.exec from position p: scan forward for the first position where the
pattern matches (the second list argument is the suffix text.drop p, which
drives the structural recursion).  Returns match index, captured token, and
match end. -/
def findFrom (text : List Char) : Nat → List Char → Option (Nat × List Char × Nat)
  | _, [] => none
  | p, _ :: rest =>
    match matchAt text p with
    | some (tok, e) => some (p, tok, e)
    | none => findFrom text (p + 1) rest

/-- The distinct matches the while loop of parseAIResponse visits during one
pass: each search resumes where the previous match ended, and the enumeration
stops when no further match exists.  This is an idealisation of the loop: in
ECMAScript a failed exec on a global regex resets lastIndex to 0 instead of
stopping, so after processing the final match the real loop restarts from
position 0 and never exits (execLoop below models that faithfully).  The real
loop cycles through exactly the matches listed here, pushing the same edits
over and over, which is what makes this single pass the right basis for
per-edit safety properties. -/
def matchesFrom (text : List Char) : Nat → Nat → List (Nat × List Char × Nat)
  | 0, _ => []
  | fuel + 1, i =>
    match findFrom text i (text.drop i) with
    | none => []
    | some (j, tok, e) => (j, tok, e) :: matchesFrom text fuel e

/-- The body of the while loop of parseAIResponse in part_000 (lines 26-42):
for each match, the filename is the trimmed capture, the content is the
trimmed text strictly between this match end and the next match index (or the
end of text), and the pair is kept only when the filename contains a period
and the content is non-empty. -/
def collectEdits (text : List Char) : List (Nat × List Char × Nat) → List FileEdit
  | [] => []
  | (_, tok, e) :: rest =>
    let filename := trim tok
    let endIdx :=
      match rest with
      | [] => text.length
      | (j, _, _) :: _ => j
    let content := trim ((text.drop e).take (endIdx - e))
    let tail := collectEdits text rest
    if filename.contains '.' ∧ content ≠ [] then ⟨filename, content⟩ :: tail else tail

/-- The edits one pass of the loop of parseAIResponse (part_000 lines 20-45)
pushes, built from the idealised match enumeration.  On inputs where the
pattern never matches this coincides with the real function, which returns the
empty list; on inputs with at least one match the real function never returns
(see parseAIResponse_part000), and this value lists the edits each cycle of
the real loop pushes, in push order. -/
def parseAIResponse_regex (text : List Char) : List FileEdit :=
  collectEdits text (matchesFrom text (text.length + 1) 0)

/-- Faithful model of the while loop of parseAIResponse in part_000: one
recursive call per loop iteration.  `i` is the regex lastIndex at the top of
the loop and `acc` the changes pushed so far (most recent first).  The
loop-condition exec searches from i; on failure the loop exits and the
function returns the pushed changes.  On success the body searches again for
nextMatch from the match end e: if that inner exec succeeds at j2 the
trailing `if (nextMatch)` sets lastIndex to j2 for the next iteration, and if
it fails ECMAScript resets the global regex's lastIndex to 0, the restore is
skipped, and the next iteration starts from position 0 again.  `fuel` bounds
the number of iterations modelled: `some changes` means the loop exited with
that result within the budget, `none` means it is still running after `fuel`
iterations. -/
def execLoop (text : List Char) : Nat → Nat → List FileEdit → Option (List FileEdit)
  | 0, _, _ => none
  | fuel + 1, i, acc =>
    match findFrom text i (text.drop i) with
    | none => some acc.reverse
    | some (_, tok, e) =>
      let filename := trim tok
      match findFrom text e (text.drop e) with
      | none =>
        let content := trim (text.drop e)
        execLoop text fuel 0
          (if filename.contains '.' ∧ content ≠ [] then ⟨filename, content⟩ :: acc else acc)
      | some (j2, _, _) =>
        let content := trim ((text.drop e).take (j2 - e))
        execLoop text fuel j2
          (if filename.contains '.' ∧ content ≠ [] then ⟨filename, content⟩ :: acc else acc)

/-- The real parseAIResponse of src/unnamed/part_000 run for at most `fuel`
loop iterations from the initial lastIndex 0: `some edits` exactly when the
function returns `edits` within that many iterations. -/
def parseAIResponse_part000 (text : List Char) (fuel : Nat) : Option (List FileEdit) :=
  execLoop text fuel 0 []

/-! ### callGeminiWithRetry of src/unnamed/part_000 (lines 6-18) -/

/-- Outcome of one attempt of model.generateContent: a value or a thrown error
carrying its message string. -/
inductive Attempt (α : Type) where
  | ok (v : α)
  | err (msg : List Char)
deriving DecidableEq

/-- The rate-limit test of part_000 line 12: e.message.includes(the digits
four two nine). -/
def includes429 (msg : List Char) : Bool :=
  includesSub ['4', '2', '9'] msg

/-- The for loop of callGeminiWithRetry.  `i` is the loop counter, `left` the
remaining iterations (retries - i), `delayMs` the current backoff delay in
milliseconds, `delays` the backoff delays slept so far (most recent first).
The result records the outcome (ok some v on return, error e on throw, ok none
if the loop falls through), the number of attempts issued, and the delays in
chronological order. -/
def retryGo {α : Type} (attempt : Nat → Attempt α) (retries : Nat) :
    Nat → Nat → ℚ → List ℚ → Except (List Char) (Option α) × Nat × List ℚ
  | i, 0, _, delays => (Except.ok none, i, delays.reverse)
  | i, left + 1, delayMs, delays =>
    match attempt i with
    | Attempt.ok v => (Except.ok (some v), i + 1, delays.reverse)
    | Attempt.err e =>
      if includes429 e = false ∨ i = retries - 1 then (Except.error e, i + 1, delays.reverse)
      else retryGo attempt retries (i + 1) left (delayMs * (3 / 2)) (delayMs :: delays)

/-- callGeminiWithRetry of part_000: up to `retries` attempts (default 3),
starting with a 60000 ms delay, multiplying the delay by 1.5 after each
rate-limited attempt.  A non-rate-limit error, or a rate-limit error on the
last attempt, is rethrown at once. -/
def callGeminiWithRetry {α : Type} (attempt : Nat → Attempt α) (retries : Nat := 3) :
    Except (List Char) (Option α) × Nat × List ℚ :=
  retryGo attempt retries 0 retries 60000 []

/-! ### Orchestration (main of both scripts) -/

/-- A backlog task (backlog.json): id, title, description, phase key. -/
structure Task where
  id : List Char
  title : List Char
  desc : List Char
  phase : List Char
deriving DecidableEq

/-- The persisted queue document backlog.json: pending and completed task
lists plus the phase-label map. -/
structure Backlog where
  pending : List Task
  completed : List Task
  phases : List (List Char × List Char)
deriving DecidableEq

/-- The inputs a single run depends on: the loaded backlog, the response text
the generation call produces, the current ISO date, and the success of the
external effects (generation call, k-th file write, git stage/commit/push). -/
structure Env where
  backlog : Backlog
  response : List Char
  date : List Char
  genOk : Bool
  writeFail : Option Nat
  publishOk : Bool

/-- What a run leaves behind: the process exit status, the backlog document
persisted on disk after the run, the file writes performed in order
(path, content), and whether a commit was made. -/
structure RunResult where
  exitCode : Nat
  persisted : Backlog
  writes : List (List Char × List Char)
  committed : Bool
deriving DecidableEq

/-- Path of the progress note docs/progress/(date)-(task id).md. -/
def progressPath (date : List Char) (t : Task) : List Char :=
  ("docs/progress/".toList) ++ date ++ '-' :: t.id ++ (".md".toList)

/-- Content of the progress note: heading, title, first 1000 characters of the
raw response. -/
def progressNote (_date : List Char) (t : Task) (response : List Char) : List Char :=
  ("# Task ".toList) ++ t.id ++ '\n' :: t.title ++ '\n' :: '\n' :: response.take 1000

/-- backlog.completed.push(backlog.pending.shift()): move the head of pending
to the end of completed. -/
def advanceBacklog (b : Backlog) : Backlog :=
  match b.pending with
  | [] => b
  | t :: rest => ⟨rest, b.completed ++ [t], b.phases⟩

/-- Tail of a run shared by both scripts once edits were written: the progress
note is written, validation runs best-effort (no observable effect modelled),
and if every git step succeeds the backlog advances and is rewritten; a git
failure aborts with status 1 and leaves backlog.json untouched.  Used by
part_000 only with a non-empty edit list (hasChanges true). -/
def finishRun (env : Env) (t : Task) (fileWrites : List (List Char × List Char)) : RunResult :=
  let writes := fileWrites ++ [(progressPath env.date t, progressNote env.date t env.response)]
  if env.publishOk then ⟨0, advanceBacklog env.backlog, writes, true⟩
  else ⟨1, env.backlog, writes, false⟩

/-- main of src/unnamed/part_000 (lines 47-155): exit 0 on an empty queue;
abort with 1 if generation fails; return before any write when the parser
yields no edits; otherwise write every edit (aborting with 1 if a write
fails), write the progress note, and commit-gate the queue advance.  The
parse step uses the idealised single-pass parser; the real script either
parses a match-free response (where the ideal and real parsers agree on [])
or hangs inside parseAIResponse before any write or commit, so every
queue-discipline conclusion proved of this model also holds of the real
script, whose queue then simply never changes. -/
def mainRun_part000 (env : Env) : RunResult :=
  match env.backlog.pending with
  | [] => ⟨0, env.backlog, [], false⟩
  | t :: _ =>
    if env.genOk = false then ⟨1, env.backlog, [], false⟩
    else
      let changes := parseAIResponse_regex env.response
      if changes = [] then ⟨0, env.backlog, [], false⟩
      else
        let fileWrites := changes.map fun c => (c.filename, c.content)
        match env.writeFail with
        | some k =>
          if k < fileWrites.length then ⟨1, env.backlog, fileWrites.take k, false⟩
          else finishRun env t fileWrites
        | none => finishRun env t fileWrites

/-- Tail of a build-pipeline.js run after the write loop: the progress note is
always written; with no changes the run logs and ends normally without a
commit, otherwise it proceeds like finishRun. -/
def pipelineFinish (env : Env) (t : Task) (fileWrites : List (List Char × List Char)) : RunResult :=
  let writes := fileWrites ++ [(progressPath env.date t, progressNote env.date t env.response)]
  if fileWrites = [] then ⟨0, env.backlog, writes, false⟩
  else if env.publishOk then ⟨0, advanceBacklog env.backlog, writes, true⟩
  else ⟨1, env.backlog, writes, false⟩

/-- main of src/scripts/build-pipeline.js (lines 6-97): like part_000 but with
no retry wrapper and no early return on an empty edit list, so the progress
note is written even when the parser yields nothing. -/
def mainRun_pipeline (env : Env) : RunResult :=
  match env.backlog.pending with
  | [] => ⟨0, env.backlog, [], false⟩
  | t :: _ =>
    if env.genOk = false then ⟨1, env.backlog, [], false⟩
    else
      let changes := parseAIResponse_pipeline env.response
      let fileWrites := changes.map fun c => (c.filename, c.content)
      match env.writeFail with
      | some k =>
        if k < fileWrites.length then ⟨1, env.backlog, fileWrites.take k, false⟩
        else pipelineFinish env t fileWrites
      | none => pipelineFinish env t fileWrites

/-! ### Specification predicates and concrete run environments -/

/-- The acceptance criterion both parsers are supposed to enforce on every
emitted edit: the filename contains a literal period (hence is not the END
sentinel) and the content is a trimmed, non-empty string. -/
def goodEdit (e : FileEdit) : Prop :=
  e.filename.contains '.' = true ∧
  trim e.content = e.content ∧
  e.content ≠ [] ∧
  e.filename ≠ ('E' :: 'N' :: 'D' :: [])

/-- Commit-gated queue discipline of one run result against the loaded
backlog: the persisted document is the advanced backlog exactly when a commit
was made and is the untouched input otherwise, the multiset of tasks is
preserved, and a commit never happens when publishing fails. -/
def queueOutcomeOk (r : RunResult) (b : Backlog) (pub : Bool) : Prop :=
  r.persisted = (if r.committed then advanceBacklog b else b) ∧
  (r.persisted.pending ++ r.persisted.completed).Perm (b.pending ++ b.completed) ∧
  (r.committed && !pub) = false

/-- An attempt stream for exercising the retry loop: every attempt throws a
rate-limited error whose message starts with the digits four two nine. -/
def rateLimitedMsg (i : Nat) : List Char :=
  '4' :: '2' :: '9' :: List.replicate i 'x'

/-- The attempt function raising rateLimitedMsg on every call. -/
def rateLimitedAttempt (i : Nat) : Attempt Unit :=
  Attempt.err (rateLimitedMsg i)

/-- An attempt stream whose first attempt is rate-limited and whose second
attempt throws a plain error without the rate-limit marker. -/
def mixedAttempt (i : Nat) : Attempt Unit :=
  if i = 0 then Attempt.err ('4' :: '2' :: '9' :: []) else Attempt.err ('b' :: 'o' :: 'o' :: 'm' :: [])

/-- First sample task for concrete runs. -/
def taskT1 : Task :=
  ⟨("T1".toList), ("first task".toList), ("build the first piece".toList), ("p1".toList)⟩

/-- Second sample task for concrete runs. -/
def taskT2 : Task :=
  ⟨("T2".toList), ("second task".toList), ("build the second piece".toList), ("p1".toList)⟩

/-- Third sample task for concrete runs. -/
def taskT3 : Task :=
  ⟨("T3".toList), ("third task".toList), ("build the third piece".toList), ("p1".toList)⟩

/-- A concrete run environment with two pending tasks, a well-formed response
and all external steps succeeding. -/
def envC7 : Env :=
  ⟨⟨[taskT1, taskT2], [], [(("p1".toList), ("phase one".toList))]⟩,
    ("=== a.txt ===\nhello\n=== END ===").toList,
    ("2026-10-11".toList), true, none, true⟩

/-- A concrete run environment whose response contains no delimiter blocks. -/
def envC9 : Env :=
  ⟨⟨[taskT3], [], []⟩,
    ("no delimiters here").toList,
    ("2026-10-11".toList), true, none, true⟩

/-! ## Theorems -/

/-! ### Trim facts -/

theorem dropWhile_head_false {p : Char → Bool} :
    ∀ {l : List Char} {c : Char} {cs : List Char}, l.dropWhile p = c :: cs → p c = false := by
  intro l
  induction l with
  | nil => intro c cs h; simp [List.dropWhile] at h
  | cons a l ih =>
    intro c cs h
    rw [List.dropWhile_cons] at h
    by_cases hpa : p a = true
    · rw [if_pos hpa] at h
      exact ih h
    · rw [if_neg hpa] at h
      injection h with h1 h2
      subst h1
      exact Bool.not_eq_true _ ▸ hpa

theorem dropWhile_append_last {p : Char → Bool} {c : Char} (hc : p c = false) :
    ∀ ys : List Char, (ys ++ [c]).dropWhile p = ys.dropWhile p ++ [c] := by
  intro ys
  induction ys with
  | nil => simp [List.dropWhile_cons, hc]
  | cons a ys ih =>
    rw [List.cons_append, List.dropWhile_cons, List.dropWhile_cons]
    by_cases hpa : p a = true
    · rw [if_pos hpa, if_pos hpa]
      exact ih
    · rw [if_neg hpa, if_neg hpa, List.cons_append]

theorem dropWhile_self {p : Char → Bool} (l : List Char) :
    (l.dropWhile p).dropWhile p = l.dropWhile p := by
  cases h : l.dropWhile p with
  | nil => simp
  | cons c cs =>
    have hc := dropWhile_head_false h
    rw [List.dropWhile_cons, if_neg (by simp [hc])]

theorem trim_trim (l : List Char) : trim (trim l) = trim l := by
  unfold trim
  cases hu : l.dropWhile isWsChar with
  | nil => simp
  | cons c u2 =>
    have hc : isWsChar c = false := dropWhile_head_false hu
    rw [List.reverse_cons, dropWhile_append_last hc, List.reverse_append,
      List.reverse_singleton, List.singleton_append, List.dropWhile_cons,
      if_neg (by simp [hc]), List.reverse_cons, List.reverse_reverse,
      dropWhile_append_last hc, dropWhile_self, List.reverse_append,
      List.reverse_singleton, List.singleton_append]

/-! ### Well-formedness of every parsed edit -/

theorem contains_dot_ne_end {l : List Char} (h : l.contains '.' = true) :
    l ≠ ('E' :: 'N' :: 'D' :: []) := by
  intro he
  rw [he] at h
  exact absurd h (by decide)

theorem mem_collectEdits {text : List Char} :
    ∀ {ms : List (Nat × List Char × Nat)} {e : FileEdit},
      e ∈ collectEdits text ms → goodEdit e := by
  intro ms
  induction ms with
  | nil => intro e h; simp [collectEdits] at h
  | cons m rest ih =>
    obtain ⟨j, tok, en⟩ := m
    intro e h
    simp only [collectEdits] at h
    split at h
    case isTrue hcond =>
      rcases List.mem_cons.mp h with he | htail
      · subst he
        exact ⟨hcond.1, trim_trim _, hcond.2, contains_dot_ne_end hcond.1⟩
      · exact ih htail
    case isFalse hcond => exact ih h

theorem pipelinePart_good {part : List Char} {e : FileEdit}
    (h : pipelinePart part = some e) : goodEdit e := by
  unfold pipelinePart at h
  dsimp only at h
  split at h
  · exact absurd h (by simp)
  · split at h
    · exact absurd h (by simp)
    · rename_i firstRaw restLines
      split at h
      · exact absurd h (by simp)
      · split at h
        case isTrue hdot =>
          split at h
          case isTrue hcond =>
            injection h with he
            subst he
            exact ⟨hdot, trim_trim _, hcond.2, contains_dot_ne_end hdot⟩
          case isFalse hcond => exact absurd h (by simp)
        case isFalse hdot => exact absurd h (by simp)

/-- C2: every FileEdit either parseAIResponse returns, at any position, has a
filename containing a literal period (so the token END never appears) and a
non-empty trimmed content. -/
theorem parsed_edit_wellformed_C2 (text : List Char) (e : FileEdit) :
    (e ∈ parseAIResponse_regex text → goodEdit e) ∧
    (e ∈ parseAIResponse_pipeline text → goodEdit e) := by
  constructor
  · intro h
    exact mem_collectEdits h
  · intro h
    obtain ⟨part, hmem, hsome⟩ := List.mem_filterMap.mp h
    exact pipelinePart_good hsome

/-- Witness for C2 at the end-to-end sample response and its first edit. -/
theorem parsed_edit_wellformed_C2_witness :
    (⟨("a.txt".toList), ("hello".toList)⟩ : FileEdit) ∈
        parseAIResponse_regex
          (("=== a.txt ===\nhello\n=== b/c.py ===\nprint(1)\n=== END ===").toList) ∧
    goodEdit ⟨("a.txt".toList), ("hello".toList)⟩ :=
  ⟨by decide,
   (parsed_edit_wellformed_C2
       (("=== a.txt ===\nhello\n=== b/c.py ===\nprint(1)\n=== END ===").toList)
       ⟨("a.txt".toList), ("hello".toList)⟩).1 (by decide)⟩

/-! ### Non-termination of the part_000 parser on delimiter-bearing text

The loop of parseAIResponse can only exit through a failed loop-condition
exec.  But the lastIndex that exec searches from is always either a position
at which a match is known to start (restored from nextMatch) or 0 (the
ECMAScript reset after a failed inner exec).  So once the text matches the
pattern anywhere, the loop-condition exec succeeds at every iteration and the
loop runs forever. -/

theorem findFrom_matchAt {text : List Char} :
    ∀ {s : List Char} {p j : Nat} {tok : List Char} {e : Nat},
      findFrom text p s = some (j, tok, e) → matchAt text j = some (tok, e) := by
  intro s
  induction s with
  | nil => intro p j tok e h; exact absurd h (by simp [findFrom])
  | cons a s ih =>
    intro p j tok e h
    rw [findFrom] at h
    cases hm : matchAt text p with
    | some m =>
      obtain ⟨tk, en⟩ := m
      rw [hm] at h
      simp only [Option.some.injEq, Prod.mk.injEq] at h
      obtain ⟨h1, h2, h3⟩ := h
      subst h1; subst h2; subst h3
      exact hm
    | none =>
      rw [hm] at h
      exact ih h

theorem matchAt_drop_ne {text : List Char} {j : Nat} {tok : List Char} {e : Nat}
    (h : matchAt text j = some (tok, e)) : text.drop j ≠ [] := by
  intro hd
  unfold matchAt at h
  rw [hd, show eqsTok.isPrefixOf ([] : List Char) = false from rfl, Bool.and_false] at h
  simp at h

theorem findFrom_self {text : List Char} {j : Nat} {tok : List Char} {e : Nat}
    (h : matchAt text j = some (tok, e)) :
    findFrom text j (text.drop j) = some (j, tok, e) := by
  cases hd : text.drop j with
  | nil => exact absurd hd (matchAt_drop_ne h)
  | cons a s => rw [findFrom, h]

theorem execLoop_never_exits {text : List Char}
    (h0 : findFrom text 0 (text.drop 0) ≠ none) :
    ∀ (fuel i : Nat) (acc : List FileEdit),
      findFrom text i (text.drop i) ≠ none → execLoop text fuel i acc = none := by
  intro fuel
  induction fuel with
  | zero => intro i acc _; rfl
  | succ n ih =>
    intro i acc hi
    rw [execLoop]
    cases hfind : findFrom text i (text.drop i) with
    | none => exact absurd hfind hi
    | some m =>
      obtain ⟨j, tok, e⟩ := m
      dsimp only
      cases hnext : findFrom text e (text.drop e) with
      | none =>
        dsimp only
        exact ih 0 _ h0
      | some m2 =>
        obtain ⟨j2, tok2, e2⟩ := m2
        dsimp only
        refine ih j2 _ ?_
        rw [findFrom_self (findFrom_matchAt hnext)]
        simp

/-- Once the pattern matches anywhere in the text, the real parseAIResponse
of part_000 never returns: after every loop budget it is still running.  The
failed exec for nextMatch resets the global regex's lastIndex to 0, so the
loop restarts from the beginning instead of stopping. -/
theorem parse_part000_diverges {text : List Char}
    (h0 : findFrom text 0 (text.drop 0) ≠ none) (fuel : Nat) :
    parseAIResponse_part000 text fuel = none :=
  execLoop_never_exits h0 fuel 0 [] h0

/-! ### Behaviour of the two parsers on concrete responses -/

/-- C1: on the end-to-end sample response the claim fails in both scripts.
The parseAIResponse of part_000 never returns: the failed exec for nextMatch
after the final block resets the global regex's lastIndex to 0, so the loop
restarts from position 0 and cycles forever — for every iteration budget the
run is still going.  The parseAIResponse of build-pipeline.js does return,
but with no edit at all instead of the two claimed ones: its
split-on-delimiter scheme puts the filename line and the block content into
different fragments.  Both contradict the output format their own prompts
mandate, which the spec's end-to-end scenario records as the intent. -/
theorem end_to_end_parse_C1 :
    (∀ fuel, parseAIResponse_part000
        (("=== a.txt ===\nhello\n=== b/c.py ===\nprint(1)\n=== END ===").toList) fuel = none) ∧
    parseAIResponse_pipeline
        (("=== a.txt ===\nhello\n=== b/c.py ===\nprint(1)\n=== END ===").toList) = [] :=
  ⟨fun fuel => parse_part000_diverges (by decide) fuel, by decide⟩

/-- C3: on a response holding three valid blocks A, B, C in source order,
neither parseAIResponse returns [A, B, C]: the part_000 loop never returns on
this input (the lastIndex reset after the final block restarts it from
position 0 forever), and build-pipeline.js returns the empty list because its
split-on-delimiter scheme never pairs a filename with its content. -/
theorem parser_ordering_C3 :
    (∀ fuel, parseAIResponse_part000
        (("=== a.txt ===\nA1\n=== b.py ===\nB2\n=== c.md ===\nC3\n=== END ===").toList) fuel =
          none) ∧
    parseAIResponse_pipeline
        (("=== a.txt ===\nA1\n=== b.py ===\nB2\n=== c.md ===\nC3\n=== END ===").toList) = [] :=
  ⟨fun fuel => parse_part000_diverges (by decide) fuel, by decide⟩

/-- C4: on the sample input with no delimiters both parsers return the empty
list, but on the delimiter-free input of a period-bearing line followed by a
second line, the build-pipeline.js parser fabricates an edit although the text
contains no delimiter block at all, while the part_000 parser correctly
returns the empty list. -/
theorem parser_emptiness_C4 :
    parseAIResponse_regex (("no delimiters here").toList) = [] ∧
    parseAIResponse_pipeline (("no delimiters here").toList) = [] ∧
    parseAIResponse_regex (("a.b\nc").toList) = [] ∧
    parseAIResponse_pipeline (("a.b\nc").toList) = [⟨("a.b".toList), ("c".toList)⟩] :=
  ⟨by decide, by decide, by decide, by decide⟩

/-- C10: the two parseAIResponse implementations are observably different on
a minimal canonical block: build-pipeline.js terminates and returns the empty
sequence, while part_000 never returns any sequence — for every loop budget
it is still running, so in particular it never produces the value
build-pipeline.js produces (nor any other). -/
theorem parser_equivalence_C10 :
    parseAIResponse_pipeline (("=== a.txt ===\nhello").toList) = [] ∧
    (∀ fuel, parseAIResponse_part000 (("=== a.txt ===\nhello").toList) fuel = none) ∧
    (∀ fuel, parseAIResponse_part000 (("=== a.txt ===\nhello").toList) fuel ≠
      some (parseAIResponse_pipeline (("=== a.txt ===\nhello").toList))) :=
  ⟨by decide,
   fun fuel => parse_part000_diverges (by decide) fuel,
   fun fuel => by
     rw [parse_part000_diverges (by decide) fuel]
     simp⟩

/-! ### The regex parser on delimiter-free text -/

theorem includesSub_false_drop {n : List Char} :
    ∀ {h : List Char}, includesSub n h = false → ∀ k, n.isPrefixOf (h.drop k) = false := by
  intro h
  induction h with
  | nil =>
    intro hf k
    rw [List.drop_nil]
    cases n with
    | nil => simp [includesSub, List.isEmpty] at hf
    | cons a as => rfl
  | cons c rest ih =>
    intro hf k
    rw [includesSub, Bool.or_eq_false_iff] at hf
    cases k with
    | zero => exact hf.1
    | succ k2 =>
      rw [List.drop_succ_cons]
      exact ih hf.2 k2

theorem matchAt_none_of_no_eqs {text : List Char}
    (hf : includesSub eqsTok text = false) (p : Nat) : matchAt text p = none := by
  unfold matchAt
  rw [includesSub_false_drop hf p, Bool.and_false, if_neg (by simp)]

theorem findFrom_none_of_no_eqs {text : List Char}
    (hf : includesSub eqsTok text = false) :
    ∀ (s : List Char) (p : Nat), findFrom text p s = none := by
  intro s
  induction s with
  | nil => intro p; rfl
  | cons a s ih =>
    intro p
    rw [findFrom, matchAt_none_of_no_eqs hf p]
    exact ih (p + 1)

/-- On any text in which the token of three equals signs never occurs, the
part_000 parser returns the empty list: there is nothing the regex can match,
and the run is a no-op rather than an error. -/
theorem parse_regex_no_delims {text : List Char}
    (hf : includesSub eqsTok text = false) : parseAIResponse_regex text = [] := by
  unfold parseAIResponse_regex
  rw [matchesFrom, findFrom_none_of_no_eqs hf _ 0]
  rfl

/-- On any text in which the token of three equals signs never occurs, the
faithful loop model agrees with the idealised parser: the very first
loop-condition exec fails, the loop body never runs, and the real part_000
parseAIResponse terminates at once with the empty list. -/
theorem parse_part000_no_delims {text : List Char}
    (hf : includesSub eqsTok text = false) (fuel : Nat) :
    parseAIResponse_part000 text (fuel + 1) = some [] := by
  unfold parseAIResponse_part000
  rw [execLoop, findFrom_none_of_no_eqs hf _ 0]
  rfl

/-! ### Retry and backoff -/

theorem delaysShift (d : ℚ) (ds : List ℚ) (n : Nat) :
    (d :: ds).reverse ++ (List.range n).map (fun k => d * (3 / 2) * (3 / 2 : ℚ) ^ k) =
      ds.reverse ++ (List.range (n + 1)).map fun k => d * (3 / 2 : ℚ) ^ k := by
  rw [List.reverse_cons, List.range_succ_eq_map, List.map_cons, List.map_map,
    List.append_assoc, List.singleton_append]
  have hfun : ((fun k => d * (3 / 2 : ℚ) ^ k) ∘ Nat.succ) =
      fun k => d * (3 / 2) * (3 / 2 : ℚ) ^ k := by
    funext k
    simp only [Function.comp_apply, pow_succ]
    ring
  rw [hfun]
  norm_num

theorem retryGo_all429 {α : Type} (attempt : Nat → Attempt α) (msg : Nat → List Char)
    (retries : Nat)
    (hmsg : ∀ j, j < retries → attempt j = Attempt.err (msg j) ∧ includes429 (msg j) = true) :
    ∀ (l i : Nat) (d : ℚ) (ds : List ℚ), i + l + 1 = retries →
      retryGo attempt retries i (l + 1) d ds =
        (Except.error (msg (retries - 1)), retries,
          ds.reverse ++ (List.range l).map fun k => d * (3 / 2 : ℚ) ^ k) := by
  intro l
  induction l with
  | zero =>
    intro i d ds hi
    obtain ⟨ha, h4⟩ := hmsg i (by omega)
    rw [retryGo]
    simp only [ha]
    rw [if_pos (Or.inr (show i = retries - 1 by omega))]
    have hr : retries = i + 1 := by omega
    subst hr
    simp
  | succ l2 ih =>
    intro i d ds hi
    obtain ⟨ha, h4⟩ := hmsg i (by omega)
    rw [retryGo]
    simp only [ha]
    rw [if_neg ?hne]
    case hne =>
      rintro (hx | hx)
      · rw [h4] at hx
        exact Bool.true_eq_false ▸ hx
      · omega
    rw [ih (i + 1) (d * (3 / 2)) (d :: ds) (by omega), delaysShift]

/-- C5: when every attempt reports a rate-limit condition,
callGeminiWithRetry issues exactly `retries` attempts (the default budget is
3), fails carrying the error of the last attempt, and sleeps, before retry k
(k = 1, 2, ...), 60000 milliseconds multiplied by three halves raised to the
power k - 1 — element k - 1 of the recorded delay list. -/
theorem gemini_retry_bound_C5 {α : Type} (attempt : Nat → Attempt α)
    (msg : Nat → List Char) (retries : Nat) (hr : 1 ≤ retries)
    (hmsg : ∀ j, j < retries → attempt j = Attempt.err (msg j) ∧ includes429 (msg j) = true) :
    callGeminiWithRetry attempt retries =
      (Except.error (msg (retries - 1)), retries,
        (List.range (retries - 1)).map fun k => (60000 : ℚ) * (3 / 2) ^ k) := by
  obtain ⟨r2, rfl⟩ : ∃ r2, retries = r2 + 1 := ⟨retries - 1, by omega⟩
  unfold callGeminiWithRetry
  rw [retryGo_all429 attempt msg (r2 + 1) hmsg r2 0 60000 [] (by omega)]
  simp

/-- Witness for C5: the default budget of three attempts against a stream of
rate-limited errors gives three attempts, the last error, and backoff delays
of 60000 ms and 90000 ms. -/
theorem gemini_retry_bound_C5_witness :
    1 ≤ 3 ∧
    (∀ j, j < 3 →
      rateLimitedAttempt j = Attempt.err (rateLimitedMsg j) ∧
        includes429 (rateLimitedMsg j) = true) ∧
    callGeminiWithRetry rateLimitedAttempt 3 =
      (Except.error (rateLimitedMsg (3 - 1)), 3,
        (List.range (3 - 1)).map fun k => (60000 : ℚ) * (3 / 2) ^ k) :=
  ⟨by decide, by decide, gemini_retry_bound_C5 rateLimitedAttempt rateLimitedMsg 3 (by decide) (by decide)⟩

theorem retryGo_non429 {α : Type} (attempt : Nat → Attempt α) (msg : Nat → List Char)
    (retries : Nat) (e : List Char) (h4 : includes429 e = false) :
    ∀ (k i l : Nat) (d : ℚ) (ds : List ℚ),
      i + l = retries → i + k < retries →
      (∀ j, i ≤ j → j < i + k → attempt j = Attempt.err (msg j) ∧ includes429 (msg j) = true) →
      attempt (i + k) = Attempt.err e →
      retryGo attempt retries i l d ds =
        (Except.error e, i + k + 1,
          ds.reverse ++ (List.range k).map fun kk => d * (3 / 2 : ℚ) ^ kk) := by
  intro k
  induction k with
  | zero =>
    intro i l d ds hil hik hprev hcur
    cases l with
    | zero => omega
    | succ l2 =>
      rw [Nat.add_zero] at hcur
      rw [retryGo]
      simp only [hcur]
      rw [if_pos (Or.inl h4)]
      simp
  | succ k2 ih =>
    intro i l d ds hil hik hprev hcur
    cases l with
    | zero => omega
    | succ l2 =>
      obtain ⟨ha, hb⟩ := hprev i (Nat.le_refl i) (by omega)
      rw [retryGo]
      simp only [ha]
      rw [if_neg ?hne2]
      case hne2 =>
        rintro (hx | hx)
        · rw [hb] at hx
          exact Bool.true_eq_false ▸ hx
        · omega
      have hprev2 : ∀ j, i + 1 ≤ j → j < i + 1 + k2 →
          attempt j = Attempt.err (msg j) ∧ includes429 (msg j) = true := by
        intro j hj1 hj2
        exact hprev j (by omega) (by omega)
      have hcur2 : attempt (i + 1 + k2) = Attempt.err e := by
        rw [show i + 1 + k2 = i + (k2 + 1) from by omega]
        exact hcur
      rw [ih (i + 1) l2 (d * (3 / 2)) (d :: ds) (by omega) (by omega) hprev2 hcur2,
        delaysShift]
      have : i + 1 + k2 + 1 = i + (k2 + 1) + 1 := by omega
      rw [this]

/-- C6: if the attempts before attempt i are all rate-limited and attempt i
fails with an error whose message lacks the rate-limit marker, the error
propagates at once: exactly i + 1 attempts are issued and only the i backoff
delays already slept are recorded, no matter how much of the retry budget
remains. -/
theorem gemini_non_ratelimit_propagates_C6 {α : Type} (attempt : Nat → Attempt α)
    (msg : Nat → List Char) (retries i : Nat) (e : List Char)
    (hi : i < retries)
    (hprev : ∀ j, j < i → attempt j = Attempt.err (msg j) ∧ includes429 (msg j) = true)
    (hcur : attempt i = Attempt.err e) (h4 : includes429 e = false) :
    callGeminiWithRetry attempt retries =
      (Except.error e, i + 1, (List.range i).map fun k => (60000 : ℚ) * (3 / 2) ^ k) := by
  unfold callGeminiWithRetry
  have h := retryGo_non429 attempt msg retries e h4 i 0 retries 60000 []
    (by omega) (by omega) (by intro j hj1 hj2; exact hprev j (by omega))
    (by rw [Nat.zero_add]; exact hcur)
  rw [h]
  simp

/-- Witness for C6: with a budget of five, a rate-limited first attempt and a
plain failure on the second attempt stop the loop after two attempts with a
single 60000 ms delay. -/
theorem gemini_non_ratelimit_propagates_C6_witness :
    1 < 5 ∧
    (∀ j, j < 1 →
      mixedAttempt j = Attempt.err ('4' :: '2' :: '9' :: []) ∧
        includes429 ('4' :: '2' :: '9' :: []) = true) ∧
    mixedAttempt 1 = Attempt.err ('b' :: 'o' :: 'o' :: 'm' :: []) ∧
    includes429 ('b' :: 'o' :: 'o' :: 'm' :: []) = false ∧
    callGeminiWithRetry mixedAttempt 5 =
      (Except.error ('b' :: 'o' :: 'o' :: 'm' :: []), 1 + 1,
        (List.range 1).map fun k => (60000 : ℚ) * (3 / 2) ^ k) :=
  ⟨by decide, by decide, by decide, by decide,
   gemini_non_ratelimit_propagates_C6 mixedAttempt
     (fun _ => '4' :: '2' :: '9' :: []) 5 1 ('b' :: 'o' :: 'o' :: 'm' :: [])
     (by decide) (by decide) (by decide) (by decide)⟩

/-! ### Queue discipline of a run -/

theorem perm_move (t : Task) (r c : List Task) :
    (r ++ (c ++ [t])).Perm (t :: (r ++ c)) := by
  rw [← List.append_assoc]
  exact List.perm_append_comm

theorem queueOutcomeOk_unchanged {r : RunResult} {b : Backlog} (pub : Bool)
    (h1 : r.persisted = b) (h2 : r.committed = false) : queueOutcomeOk r b pub := by
  unfold queueOutcomeOk
  rw [h1, h2]
  exact ⟨by simp, List.Perm.refl _, by simp⟩

theorem queueOutcomeOk_advanced {r : RunResult} (t : Task) (rest comp : List Task)
    (ph : List (List Char × List Char))
    (h1 : r.persisted = advanceBacklog ⟨t :: rest, comp, ph⟩) (h2 : r.committed = true) :
    queueOutcomeOk r ⟨t :: rest, comp, ph⟩ true := by
  unfold queueOutcomeOk
  rw [h1, h2]
  refine ⟨by simp, ?_, by simp⟩
  simp only [advanceBacklog]
  exact perm_move t rest comp

theorem mainRun_part000_queue (env : Env) :
    queueOutcomeOk (mainRun_part000 env) env.backlog env.publishOk := by
  obtain ⟨⟨pend, comp, ph⟩, resp, date, gOk, wF, pOk⟩ := env
  dsimp only [mainRun_part000]
  cases pend with
  | nil => exact queueOutcomeOk_unchanged _ rfl rfl
  | cons t rest =>
    cases gOk with
    | false => exact queueOutcomeOk_unchanged _ rfl rfl
    | true =>
      dsimp only
      rw [if_neg (by simp)]
      cases hch : parseAIResponse_regex resp with
      | nil => rw [if_pos rfl]; exact queueOutcomeOk_unchanged _ rfl rfl
      | cons c cs =>
        rw [if_neg (by simp)]
        have hfin : queueOutcomeOk
            (finishRun ⟨⟨t :: rest, comp, ph⟩, resp, date, true, wF, pOk⟩ t
              ((c :: cs).map fun c => (c.filename, c.content)))
            (⟨t :: rest, comp, ph⟩ : Backlog) pOk := by
          unfold finishRun
          dsimp only
          cases pOk with
          | false => rw [if_neg (by simp)]; exact queueOutcomeOk_unchanged _ rfl rfl
          | true => rw [if_pos rfl]; exact queueOutcomeOk_advanced t rest comp ph rfl rfl
        cases wF with
        | none => exact hfin
        | some k =>
          dsimp only
          by_cases hk : k < ((c :: cs).map fun c => (c.filename, c.content)).length
          · rw [if_pos hk]
            exact queueOutcomeOk_unchanged _ rfl rfl
          · rw [if_neg hk]
            exact hfin

theorem mainRun_pipeline_queue (env : Env) :
    queueOutcomeOk (mainRun_pipeline env) env.backlog env.publishOk := by
  obtain ⟨⟨pend, comp, ph⟩, resp, date, gOk, wF, pOk⟩ := env
  dsimp only [mainRun_pipeline]
  cases pend with
  | nil => exact queueOutcomeOk_unchanged _ rfl rfl
  | cons t rest =>
    cases gOk with
    | false => exact queueOutcomeOk_unchanged _ rfl rfl
    | true =>
      dsimp only
      rw [if_neg (by simp)]
      have hfin : queueOutcomeOk
          (pipelineFinish ⟨⟨t :: rest, comp, ph⟩, resp, date, true, wF, pOk⟩ t
            ((parseAIResponse_pipeline resp).map fun c => (c.filename, c.content)))
          (⟨t :: rest, comp, ph⟩ : Backlog) pOk := by
        unfold pipelineFinish
        dsimp only
        by_cases hw : ((parseAIResponse_pipeline resp).map fun c => (c.filename, c.content)) = []
        · rw [if_pos hw]
          exact queueOutcomeOk_unchanged _ rfl rfl
        · rw [if_neg hw]
          cases pOk with
          | false => rw [if_neg (by simp)]; exact queueOutcomeOk_unchanged _ rfl rfl
          | true => rw [if_pos rfl]; exact queueOutcomeOk_advanced t rest comp ph rfl rfl
      cases wF with
      | none => exact hfin
      | some k =>
        dsimp only
        by_cases hk : k < ((parseAIResponse_pipeline resp).map fun c => (c.filename, c.content)).length
        · rw [if_pos hk]
          exact queueOutcomeOk_unchanged _ rfl rfl
        · rw [if_neg hk]
          exact hfin

/-- C7: for every run, in both scripts, the persisted backlog is either the
untouched input document (publish failed, a fatal error occurred, or nothing
was applied) or differs from it exactly by the head of pending moving to the
end of completed (publish succeeded and a commit was made); the multiset of
tasks is preserved, so no task is lost or duplicated, and when the input
document holds each task exactly once so does the output document, so no task
ends up in both lists. -/
theorem queue_advance_gating_C7 (env : Env)
    (h : (env.backlog.pending ++ env.backlog.completed).Nodup) :
    queueOutcomeOk (mainRun_part000 env) env.backlog env.publishOk ∧
    queueOutcomeOk (mainRun_pipeline env) env.backlog env.publishOk ∧
    ((mainRun_part000 env).persisted.pending ++
      (mainRun_part000 env).persisted.completed).Nodup ∧
    ((mainRun_pipeline env).persisted.pending ++
      (mainRun_pipeline env).persisted.completed).Nodup :=
  have q1 := mainRun_part000_queue env
  have q2 := mainRun_pipeline_queue env
  ⟨q1, q2, (q1.2.1.nodup_iff).mpr h, (q2.2.1.nodup_iff).mpr h⟩

/-- Witness for C7 at a concrete two-task backlog with a successful publish. -/
theorem queue_advance_gating_C7_witness :
    (envC7.backlog.pending ++ envC7.backlog.completed).Nodup ∧
    (queueOutcomeOk (mainRun_part000 envC7) envC7.backlog envC7.publishOk ∧
     queueOutcomeOk (mainRun_pipeline envC7) envC7.backlog envC7.publishOk ∧
     ((mainRun_part000 envC7).persisted.pending ++
       (mainRun_part000 envC7).persisted.completed).Nodup ∧
     ((mainRun_pipeline envC7).persisted.pending ++
       (mainRun_pipeline envC7).persisted.completed).Nodup) :=
  ⟨by decide, queue_advance_gating_C7 envC7 (by decide)⟩

/-- C9: in every run in which both parsers return zero edits and the
generation call succeeds, the part_000 script ends with status 0, performs no
file write, makes no commit and leaves the queue document unchanged exactly as
claimed, while the build-pipeline.js script — which lacks the early return —
still writes the progress note file even though nothing was parsed, violating
the no-file-writes part of the claim (its exit status, commit and queue
behaviour do conform). -/
theorem noop_run_C9 (env : Env) (t : Task) (rest : List Task)
    (hp : env.backlog.pending = t :: rest)
    (hg : env.genOk = true)
    (hr : parseAIResponse_regex env.response = [])
    (hq : parseAIResponse_pipeline env.response = []) :
    mainRun_part000 env = ⟨0, env.backlog, [], false⟩ ∧
    mainRun_pipeline env =
      ⟨0, env.backlog,
        [(progressPath env.date t, progressNote env.date t env.response)], false⟩ := by
  obtain ⟨⟨pend, comp, ph⟩, resp, date, gOk, wF, pOk⟩ := env
  dsimp only at hp hg hr hq
  subst hp
  subst hg
  constructor
  · dsimp only [mainRun_part000]
    rw [if_neg (by simp), hr, if_pos rfl]
  · dsimp only [mainRun_pipeline]
    rw [if_neg (by simp), hq]
    simp only [List.map_nil]
    cases wF with
    | none =>
      unfold pipelineFinish
      rw [if_pos rfl]
      rfl
    | some k =>
      dsimp only
      rw [if_neg (by simp)]
      unfold pipelineFinish
      rw [if_pos rfl]
      rfl

/-- Witness for C9 at a concrete run whose response holds no delimiters. -/
theorem noop_run_C9_witness :
    envC9.backlog.pending = taskT3 :: [] ∧ envC9.genOk = true ∧
    parseAIResponse_regex envC9.response = [] ∧
    parseAIResponse_pipeline envC9.response = [] ∧
    (mainRun_part000 envC9 = ⟨0, envC9.backlog, [], false⟩ ∧
     mainRun_pipeline envC9 =
       ⟨0, envC9.backlog,
         [(progressPath envC9.date taskT3, progressNote envC9.date taskT3 envC9.response)],
         false⟩) :=
  ⟨rfl, rfl, by decide, by decide,
   noop_run_C9 envC9 taskT3 [] rfl rfl (by decide) (by decide)⟩

end DealSync
